import Mathlib

/-!
Verification of the berch-v2 sharded crawl-state pipeline.

Shallow embedding of the pipeline's pure logic:
* `utils.js`: `dedupeEvents`, `createInternalId`
* `scrape-match-summary.js`: the worker-local `dedupeEvents`
* `database.js`: `saveMatches`, `updateMatchStatus`, `getMatchesForProcessing`
* `export-batches.js` (in `batch-processor/output/fetch-artifacts.js`): the
  partitioner query / flush loop
* `import-artifacts.js`: the per-entry result importer
* `scrape-batch.js` / `scrape-batch-with-mem.js`: the shard worker result loops

Conventions: the Mongo store is modelled as lists of documents; JS strings as
`String`; nullable / possibly-absent JS fields as `Option`; dates as opaque
strings or naturals.  Timestamp bookkeeping fields (`updatedAt`, `processedAt`,
`createdAt` and the like) are omitted from the model: every claim below is
stated modulo timestamps.
-/

namespace Berch

/-! ## Events and the Event Reconciler (`utils.js` lines 74-96)

A scraped event.  `minute`, `player` and `assist` come from
`textContent.trim() || null`, so they are either `none` (JS `null`) or a
string; the scraper never produces an empty-string value for them.
`isOwnGoal` is set by the cleanup pass in `scrape-match-summary.js`; an absent
JS field behaves exactly like `false` under the reconciler's truthiness test,
so it is modelled as `Bool`. -/
structure Event where
  minute : Option String
  type : String
  player : Option String
  assist : Option String
  isOwnGoal : Bool
deriving Repr, DecidableEq

/-- `[e.minute, e.type, e.player].join('|')`: `Array.prototype.join`
stringifies `null` as the empty string. -/
def eventKey (e : Event) : String :=
  e.minute.getD "" ++ "|" ++ e.type ++ "|" ++ e.player.getD ""

/-- The merge applied to the stored canonical record on a repeat key:
`if (!stored.assist && e.assist) stored.assist = e.assist;`
`if (e.isOwnGoal) stored.isOwnGoal = true;` -/
def mergeInto (s e : Event) : Event :=
  { s with
    assist := if s.assist.isNone && e.assist.isSome then e.assist else s.assist
    isOwnGoal := if e.isOwnGoal then true else s.isOwnGoal }

/-- One iteration of the `for (const e of raw)` loop of `dedupeEvents`.
The insertion-ordered JS `Map` is modelled as a list of records whose keys are
distinct; `byKey.set` on a fresh key appends, a repeat key mutates the stored
record in place. -/
def dedupeStep (acc : List Event) (e : Event) : List Event :=
  if acc.any (fun s => eventKey s == eventKey e) then
    acc.map (fun s => if eventKey s == eventKey e then mergeInto s e else s)
  else
    acc ++ [e]

/-- `dedupeEvents` from `utils.js`. -/
def dedupeEvents (raw : List Event) : List Event :=
  raw.foldl dedupeStep []

/-! Specification-level description of the reconciler, written in the words of
the spec (one canonical record per key, first-seen order, first occurrence
canonical, first available assist adopted, own-goal flags OR-ed). -/

/-- The distinct keys of `raw` in order of first appearance. -/
def firstSeenKeys : List Event → List String
  | [] => []
  | e :: rest => eventKey e :: (firstSeenKeys rest).filter (fun k => k != eventKey e)

/-- The canonical record for key `k`: the first occurrence, with the first
available assist among all sightings adopted and the own-goal flags OR-ed. -/
def canonOfKey (raw : List Event) (k : String) : Option Event :=
  match raw.filter (fun e => eventKey e == k) with
  | [] => none
  | c :: rest =>
    some { minute := c.minute, type := c.type, player := c.player
           assist := ((c :: rest).filterMap Event.assist).head?
           isOwnGoal := (c :: rest).any Event.isOwnGoal }

/-- The reconciler's output, described per key in first-seen order. -/
def canonList (raw : List Event) : List Event :=
  (firstSeenKeys raw).filterMap (canonOfKey raw)

/-- Folding `mergeInto` over the later sightings of a key. -/
def mergeAll (c : Event) (occs : List Event) : Event :=
  occs.foldl mergeInto c

theorem eventKey_mergeInto (s e : Event) : eventKey (mergeInto s e) = eventKey s := rfl

theorem mergeAll_spec (occs : List Event) : ∀ c : Event,
    mergeAll c occs =
      { minute := c.minute, type := c.type, player := c.player
        assist := ((c :: occs).filterMap Event.assist).head?
        isOwnGoal := (c :: occs).any Event.isOwnGoal } := by
  induction occs with
  | nil =>
    intro c
    cases c with
    | mk m t p a o =>
      simp [mergeAll, List.filterMap]
      cases a <;> simp [List.head?]
  | cons e l ih =>
    intro c
    show mergeAll (mergeInto c e) l = _
    rw [ih (mergeInto c e)]
    cases hca : c.assist with
    | some a =>
      simp [mergeInto, hca, List.filterMap_cons, List.any_cons, Bool.or_assoc]
      cases c.isOwnGoal <;> cases e.isOwnGoal <;> simp
    | none =>
      cases hea : e.assist with
      | some b =>
        simp [mergeInto, hca, hea, List.filterMap_cons]
        cases c.isOwnGoal <;> cases e.isOwnGoal <;> simp
      | none =>
        simp [mergeInto, hca, hea, List.filterMap_cons]
        cases c.isOwnGoal <;> cases e.isOwnGoal <;> simp

theorem str_beq_false {a b : String} (h : a ≠ b) : (a == b) = false := by
  cases hab : a == b
  · rfl
  · exact absurd (eq_of_beq hab) h

theorem beq_str_comm (a b : String) : (a == b) = (b == a) := by
  by_cases h : a = b
  · rw [h]
  · rw [str_beq_false h, str_beq_false (Ne.symm h)]

theorem filterMap_congr_mem {α β : Type} {f g : α → Option β} :
    ∀ {l : List α}, (∀ x ∈ l, f x = g x) → l.filterMap f = l.filterMap g := by
  intro l
  induction l with
  | nil => intro _; rfl
  | cons a t ih =>
    intro h
    rw [List.filterMap_cons, List.filterMap_cons, h a (by simp),
      ih (fun x hx => h x (by simp [hx]))]

theorem firstSeenKeys_filter_ne (a : String) (l : List Event) :
    firstSeenKeys (l.filter (fun e => eventKey e != a)) =
      (firstSeenKeys l).filter (fun k => k != a) := by
  induction l with
  | nil => rfl
  | cons e t ih =>
    by_cases h : eventKey e = a
    · rw [List.filter_cons_of_neg (by simp [h]), ih, firstSeenKeys,
        List.filter_cons_of_neg (by simp [h]), List.filter_filter]
      apply List.filter_congr
      intro k _
      rw [h, Bool.and_self]
    · rw [List.filter_cons_of_pos (by simp [h]), firstSeenKeys, firstSeenKeys, ih,
        List.filter_cons_of_pos (by simp [h]), List.filter_filter, List.filter_filter]
      congr 1
      apply List.filter_congr
      intro k _
      rw [Bool.and_comm]

theorem canonOfKey_cons_ne {e : Event} {k : String} (l : List Event)
    (h : eventKey e ≠ k) : canonOfKey (e :: l) k = canonOfKey l k := by
  unfold canonOfKey
  rw [List.filter_cons_of_neg (by simp [h])]

theorem canonOfKey_filter_ne {k a : String} (l : List Event) (h : k ≠ a) :
    canonOfKey (l.filter (fun e => eventKey e != a)) k = canonOfKey l k := by
  unfold canonOfKey
  rw [List.filter_filter]
  have : List.filter (fun x => (eventKey x == k) && (eventKey x != a)) l =
      List.filter (fun x => eventKey x == k) l := by
    apply List.filter_congr
    intro x _
    by_cases hx : eventKey x = k
    · simp [hx, h]
    · simp [str_beq_false hx]
  rw [this]

theorem foldl_dedupeStep_spec (raw : List Event) : ∀ acc : List Event,
    raw.foldl dedupeStep acc =
      acc.map (fun s => mergeAll s (raw.filter (fun x => eventKey x == eventKey s)))
      ++ canonList (raw.filter
            (fun x => !(acc.any (fun s => eventKey s == eventKey x)))) := by
  induction raw with
  | nil =>
    intro acc
    simp [mergeAll, canonList, firstSeenKeys]
  | cons e t ih =>
    intro acc
    rw [List.foldl_cons]
    by_cases hmem : acc.any (fun s => eventKey s == eventKey e) = true
    · have hstep : dedupeStep acc e =
          acc.map (fun s => if eventKey s == eventKey e then mergeInto s e else s) := by
        simp [dedupeStep, hmem]
      have hupd : ∀ s : Event,
          eventKey (if eventKey s == eventKey e then mergeInto s e else s) = eventKey s := by
        intro s; split <;> rfl
      rw [hstep, ih]
      congr 1
      · rw [List.map_map]
        apply List.map_congr_left
        intro s _
        simp only [Function.comp]
        by_cases hk : eventKey s = eventKey e
        · rw [if_pos (beq_iff_eq.2 hk), eventKey_mergeInto,
            List.filter_cons_of_pos (p := fun x => eventKey x == eventKey s)
              (beq_iff_eq.2 hk.symm)]
          rfl
        · rw [if_neg (by simp [hk]),
            List.filter_cons_of_neg (p := fun x => eventKey x == eventKey s)
              (by simp [str_beq_false (fun h : eventKey e = eventKey s => hk h.symm)])]
      · congr 1
        rw [List.filter_cons_of_neg
            (p := fun x => !(acc.any fun s => eventKey s == eventKey x))
            (by show ¬(!(acc.any fun s => eventKey s == eventKey e)) = true
                rw [hmem]
                simp)]
        apply List.filter_congr
        intro x _
        rw [List.any_map]
        have : ((fun s : Event => eventKey s == eventKey x) ∘
            (fun s => if eventKey s == eventKey e then mergeInto s e else s))
            = (fun s : Event => eventKey s == eventKey x) :=
          funext fun s => by simp only [Function.comp_apply, hupd s]
        rw [this]
    · have hmem' : acc.any (fun s => eventKey s == eventKey e) = false :=
        Bool.eq_false_iff.2 hmem
      have hne : ∀ s ∈ acc, eventKey s ≠ eventKey e := by
        intro s hs h
        exact hmem (List.any_eq_true.2 ⟨s, hs, beq_iff_eq.2 h⟩)
      have hstep : dedupeStep acc e = acc ++ [e] := by
        simp [dedupeStep, hmem']
      rw [hstep, ih, List.map_append]
      simp only [List.map_cons, List.map_nil]
      rw [List.append_assoc]
      congr 1
      · apply List.map_congr_left
        intro s hs
        rw [List.filter_cons_of_neg (p := fun x => eventKey x == eventKey s)
          (by simp [str_beq_false (fun h : eventKey e = eventKey s => hne s hs h.symm)])]
      · -- the fresh-key record plus the remaining keys
        have hpe : (!(acc.any fun s => eventKey s == eventKey e)) = true := by
          rw [hmem']; rfl
        rw [List.filter_cons_of_pos
          (p := fun x => !(acc.any fun s => eventKey s == eventKey x)) hpe]
        have hhead : canonOfKey
            (e :: t.filter (fun x => !(acc.any fun s => eventKey s == eventKey x)))
            (eventKey e)
            = some (mergeAll e (t.filter (fun x => eventKey x == eventKey e))) := by
          unfold canonOfKey
          rw [List.filter_cons_of_pos (p := fun x => eventKey x == eventKey e)
            (beq_iff_eq.2 rfl), List.filter_filter]
          have : List.filter (fun x => (eventKey x == eventKey e)
                && !(acc.any fun s => eventKey s == eventKey x)) t
              = List.filter (fun x => eventKey x == eventKey e) t := by
            apply List.filter_congr
            intro x _
            by_cases hx : eventKey x = eventKey e
            · rw [hx, hmem']
              simp
            · simp [str_beq_false hx]
          rw [this, mergeAll_spec]
        conv_rhs => rw [canonList]
        rw [firstSeenKeys]
        simp only [List.filterMap_cons, hhead]
        rw [List.singleton_append]
        congr 1
        have hmem_t : ∀ k ∈ (firstSeenKeys (t.filter
              (fun x => !(acc.any fun s => eventKey s == eventKey x)))).filter
              (fun k => k != eventKey e),
            canonOfKey (e :: t.filter (fun x => !(acc.any fun s => eventKey s == eventKey x))) k
              = canonOfKey ((t.filter (fun x => !(acc.any fun s => eventKey s == eventKey x))).filter
                  (fun x => eventKey x != eventKey e)) k := by
          intro k hk
          have hkne : k ≠ eventKey e := by
            have := (List.mem_filter.1 hk).2
            simpa using this
          rw [canonOfKey_cons_ne _ (Ne.symm hkne), canonOfKey_filter_ne _ hkne]
        rw [filterMap_congr_mem hmem_t, ← firstSeenKeys_filter_ne]
        show canonList _ = canonList _
        congr 1
        rw [List.filter_filter]
        apply List.filter_congr
        intro x _
        rw [List.any_append]
        simp only [List.any_cons, List.any_nil, Bool.or_false, Bool.not_or]
        by_cases hx : eventKey e = eventKey x
        · rw [show (eventKey x != eventKey e) = !(eventKey x == eventKey e) from rfl,
            beq_iff_eq.2 hx, beq_iff_eq.2 hx.symm]
          simp
        · rw [str_beq_false hx,
            show (eventKey x != eventKey e) = !(eventKey x == eventKey e) from rfl,
            str_beq_false (Ne.symm hx)]
          simp

theorem dedupeEvents_eq_canonList (raw : List Event) : dedupeEvents raw = canonList raw := by
  have h := foldl_dedupeStep_spec raw []
  simpa [dedupeEvents] using h

/-! ## The worker-local dedupe (`scrape-match-summary.js` lines 20-30) -/

/-- `e.minute === event.minute && e.type === event.type && e.player === event.player`. -/
def sameKeyFields (a b : Event) : Bool :=
  a.minute == b.minute && a.type == b.type && a.player == b.player

/-- The worker-local `dedupeEvents` of `scrape-match-summary.js`:
`events.filter((event, index, self) => index === self.findIndex(e => ...))`.
It keeps the first occurrence per field triple and performs no merging. -/
def dedupeEventsWorker (events : List Event) : List Event :=
  (events.enum.filter
    (fun p => events.findIdx (fun e => sameKeyFields e p.2) == p.1)).map (fun p => p.2)

/-- C1: for `[{minute:5,type:"goal",player:"A"}, {minute:5,type:"goal",player:"A",assist:"B"}]`
the reconciler returns exactly one event carrying assist `"B"`; in general
`dedupeEvents` produces, per repeat key and in first-seen order, the first
occurrence as canonical with a missing assist adopted from the first later
sighting that has one and `isOwnGoal` the OR of all sightings (`canonList`
states exactly that merge rule). -/
theorem C1_dedupe_merge :
    dedupeEvents [⟨some "5", "goal", some "A", none, false⟩,
                  ⟨some "5", "goal", some "A", some "B", false⟩]
      = [⟨some "5", "goal", some "A", some "B", false⟩]
    ∧ ∀ raw : List Event, dedupeEvents raw = canonList raw :=
  ⟨by decide, dedupeEvents_eq_canonList⟩

/-- C2: the shard worker does NOT apply the §4.1 reconciler: its local
`dedupeEvents` keeps the first sighting verbatim and drops the assist that
`utils.js`'s reconciler would adopt.  Evaluation at the failing input. -/
theorem C2_worker_dedupe_differs :
    dedupeEventsWorker [⟨some "5", "goal", some "A", none, false⟩,
                        ⟨some "5", "goal", some "A", some "B", false⟩]
      = [⟨some "5", "goal", some "A", none, false⟩]
    ∧ dedupeEvents [⟨some "5", "goal", some "A", none, false⟩,
                    ⟨some "5", "goal", some "A", some "B", false⟩]
      = [⟨some "5", "goal", some "A", some "B", false⟩]
    ∧ dedupeEventsWorker [⟨some "5", "goal", some "A", none, false⟩,
                          ⟨some "5", "goal", some "A", some "B", false⟩]
      ≠ dedupeEvents [⟨some "5", "goal", some "A", none, false⟩,
                      ⟨some "5", "goal", some "A", some "B", false⟩] :=
  ⟨by decide, by decide, by decide⟩

/-! ## `createInternalId` (`utils.js` lines 33-43) -/

/-- `str?.toLowerCase().replace(/[^a-z0-9]/g, '') || ''`.  A missing name
(JS `null`/`undefined`) short-circuits through `?.` and `|| ''` to the empty
string.  `toLowerCase` is modelled on its ASCII behaviour; characters outside
`[a-z0-9]` after lowercasing are removed by the `replace`. -/
def jsToLower (c : Char) : Char :=
  if 65 ≤ c.toNat ∧ c.toNat ≤ 90 then Char.ofNat (c.toNat + 32) else c

def normalize (s : Option String) : String :=
  match s with
  | none => ""
  | some str =>
    ((str.toList.map jsToLower).filter (fun c => c.isLower || c.isDigit)).asString

/-- The `date` argument as `createInternalId` inspects it: not a `Date`
instance at all, an invalid `Date` (`NaN` time value), or a valid `Date`
whose UTC calendar day is `year-month-day` (the digits `toISOString` prints;
years 0-9999). -/
inductive JsDateArg
  | notDate
  | invalidDate
  | validDate (year month day : Nat)
deriving Repr, DecidableEq

def pad2 (n : Nat) : String :=
  if n < 10 then "0" ++ toString n else toString n

def pad4 (n : Nat) : String :=
  if n < 10 then "000" ++ toString n
  else if n < 100 then "00" ++ toString n
  else if n < 1000 then "0" ++ toString n
  else toString n

/-- `date instanceof Date && !isNaN(date.getTime())` guards the date part;
`toISOString().split('T')[0]` with the dashes replaced away yields `YYYYMMDD`. -/
def datePart : JsDateArg → String
  | .validDate y m d => pad4 y ++ pad2 m ++ pad2 d
  | _ => ""

/-- `createInternalId` from `utils.js`. -/
def createInternalId (homeTeam awayTeam : Option String) (date : JsDateArg) : String :=
  datePart date ++ "_" ++ normalize homeTeam ++ "_vs_" ++ normalize awayTeam

/-- C10: `createInternalId` is total on missing team names and arbitrary date
values and always returns `datePart_home_vs_away`, with each team part the
lowercased name stripped to `[a-z0-9]` (empty for a missing name) and the
date part `YYYYMMDD` exactly for a valid `Date`, empty otherwise. -/
theorem C10_createInternalId_total_shape :
    (∀ h a d, createInternalId h a d
        = datePart d ++ "_" ++ normalize h ++ "_vs_" ++ normalize a)
    ∧ normalize none = ""
    ∧ (∀ s, normalize (some s)
        = ((s.toList.map jsToLower).filter (fun c => c.isLower || c.isDigit)).asString)
    ∧ (∀ h a, createInternalId h a .notDate = "_" ++ normalize h ++ "_vs_" ++ normalize a)
    ∧ (∀ h a, createInternalId h a .invalidDate = "_" ++ normalize h ++ "_vs_" ++ normalize a)
    ∧ (∀ h a y m d, createInternalId h a (.validDate y m d)
        = pad4 y ++ pad2 m ++ pad2 d ++ "_" ++ normalize h ++ "_vs_" ++ normalize a)
    ∧ createInternalId (some "FC Barcelona") (some "Real Madrid!") (.validDate 2025 4 25)
        = "20250425_fcbarcelona_vs_realmadrid"
    ∧ createInternalId none none .notDate = "__vs_" := by
  refine ⟨fun h a d => rfl, rfl, fun s => rfl, fun h a => ?_, fun h a => ?_,
    fun h a y m d => ?_, by decide, by decide⟩
  · simp [createInternalId, datePart, String.append_assoc]
  · simp [createInternalId, datePart, String.append_assoc]
  · simp [createInternalId, datePart, String.append_assoc]

/-! ## The match record store (`database.js`, `schema.js`)

Documents of the `matches` collection; `scrapeId` is absent on records that
predate the field, `date`/`internalId`/classification fields are nullable.
Dates are carried as opaque strings. -/
structure MatchDoc where
  matchId : String
  internalId : Option String
  country : Option String
  league : Option String
  team : Option String
  date : Option String
  scrapedAt : Nat
  scrapeId : Option Nat
  processingStatus : String
  processingAttempts : Nat
deriving Repr, DecidableEq

/-- The `dateInfo` block a worker emits when the match date parsed. -/
structure DateInfo where
  parsedDate : String
  properInternalId : String
deriving Repr, DecidableEq

/-- A worker details payload (`createMatchDetails` shape, modulo timestamps).
`internalId` is `none` when the worker had no `dateInfo` (an `undefined`
property is dropped by `JSON.stringify`). -/
structure Details where
  matchId : String
  internalId : Option String
  basicInfo : String
  teams : String
  events : List Event
  processingStatus : String
deriving Repr, DecidableEq

/-- A stored `match_details` document: a full worker payload
(`$set {...details}` overwrites every modelled field), or degenerately a
document created by an upsert whose `$set` carried no details, in which case
only the `matchId` filter key materialises. -/
structure DetailsDoc where
  matchId : String
  body : Option Details
deriving Repr, DecidableEq

/-- One entry of a worker result file (§6 interface). -/
structure Entry where
  matchId : String
  scrapeId : Option Nat
  details : Option Details
  dateInfo : Option DateInfo
  error : Option String
deriving Repr, DecidableEq

/-- The slice of the store the shard pipeline touches. -/
structure Store where
  matchDocs : List MatchDoc
  detailDocs : List DetailsDoc
deriving Repr, DecidableEq

/-- Mongo `updateOne`: applies `f` to the first document matching `p`,
leaving everything else in place. -/
def updateFirst {α : Type} (p : α → Bool) (f : α → α) : List α → List α
  | [] => []
  | x :: xs => if p x then f x :: xs else x :: updateFirst p f xs

/-! ## The Result Importer (`import-artifacts.js` lines 48-87) -/

/-- `if (result.error)`: JS truthiness of the `error` field. -/
def errTruthy (r : Entry) : Bool :=
  match r.error with
  | some s => s != ""
  | none => false

/-- `result.dateInfo?.properInternalId || result.details.internalId`.
The outer `none` models the `TypeError` thrown when the `||` falls through to
`result.details.internalId` with `details` absent (the per-entry `catch` then
leaves the store untouched); the inner option is the value `$set` stores (an
`undefined` value is serialised as `null` by the driver, hence inner `none`). -/
def importIid (r : Entry) : Option (Option String) :=
  match r.dateInfo with
  | some di =>
    if di.properInternalId == "" then r.details.map Details.internalId
    else some (some di.properInternalId)
  | none => r.details.map Details.internalId

/-- `result.dateInfo?.parsedDate || null`. -/
def importDate (r : Entry) : Option String :=
  match r.dateInfo with
  | some di => if di.parsedDate == "" then none else some di.parsedDate
  | none => none

/-- The `match_details` document after `$set {...result.details}` on an
existing document `old`. -/
def detailsWriteDoc (r : Entry) (old : DetailsDoc) : DetailsDoc :=
  match r.details with
  | some d => ⟨d.matchId, some d⟩
  | none => old

/-- The document materialised when the upsert inserts. -/
def detailsInsertDoc (r : Entry) : DetailsDoc :=
  match r.details with
  | some d => ⟨d.matchId, some d⟩
  | none => ⟨r.matchId, none⟩

/-- `db.collection('match_details').updateOne({matchId}, {$set: {...}}, {upsert:true})`. -/
def upsertDetails (r : Entry) (dl : List DetailsDoc) : List DetailsDoc :=
  if dl.any (fun dd => dd.matchId == r.matchId) then
    updateFirst (fun dd => dd.matchId == r.matchId) (detailsWriteDoc r) dl
  else
    dl ++ [detailsInsertDoc r]

/-- The `$set` the importer applies to the `matches` document of a
successful entry (`processingStatus: 'complete'`, `date`, `internalId`;
note: no `$inc` of `processingAttempts`). -/
def successMatchSet (dateVal : Option String) (iid : Option String) (d : MatchDoc) : MatchDoc :=
  { d with processingStatus := "complete", date := dateVal, internalId := iid }

/-- One iteration of the per-match loop of `import-artifacts.js`. -/
def importEntry (s : Store) (r : Entry) : Store :=
  if errTruthy r then s
  else
    match importIid r with
    | none => s
    | some iid =>
      { matchDocs := updateFirst (fun d => d.matchId == r.matchId)
          (successMatchSet (importDate r) iid) s.matchDocs
        detailDocs := upsertDetails r s.detailDocs }

/-- The importer's whole-file loop. -/
def importFile (s : Store) (rs : List Entry) : Store :=
  rs.foldl importEntry s

def findMatch (id : String) (ms : List MatchDoc) : Option MatchDoc :=
  ms.find? (fun d => d.matchId == id)

def findDetails (id : String) (dl : List DetailsDoc) : Option DetailsDoc :=
  dl.find? (fun dd => dd.matchId == id)

theorem find?_updateFirst {α : Type} (p : α → Bool) (f : α → α)
    (hf : ∀ x, p x = true → p (f x) = true) :
    ∀ l : List α, (updateFirst p f l).find? p = (l.find? p).map f := by
  intro l
  induction l with
  | nil => rfl
  | cons x xs ih =>
    by_cases hx : p x = true
    · rw [updateFirst, if_pos hx, List.find?_cons_of_pos _ (hf x hx),
        List.find?_cons_of_pos _ hx]
      rfl
    · rw [updateFirst, if_neg hx, List.find?_cons_of_neg _ hx,
        List.find?_cons_of_neg _ hx, ih]

theorem findDetails_upsertDetails (r : Entry) (d : Details) (hd : r.details = some d)
    (hdm : d.matchId = r.matchId) (dl : List DetailsDoc) :
    findDetails r.matchId (upsertDetails r dl) = some ⟨r.matchId, some d⟩ := by
  unfold findDetails upsertDetails
  by_cases hin : dl.any (fun dd => dd.matchId == r.matchId) = true
  · rw [if_pos hin]
    have hpres : ∀ x, (fun dd : DetailsDoc => dd.matchId == r.matchId) x = true →
        (fun dd : DetailsDoc => dd.matchId == r.matchId) (detailsWriteDoc r x) = true := by
      intro x _
      simp [detailsWriteDoc, hd, hdm]
    rw [find?_updateFirst _ _ hpres]
    obtain ⟨x, hxmem, hxp⟩ := List.any_eq_true.1 hin
    obtain ⟨y, hy⟩ := Option.isSome_iff_exists.1
      ((@List.find?_isSome DetailsDoc dl (fun dd => dd.matchId == r.matchId)).2
        ⟨x, hxmem, hxp⟩)
    rw [hy]
    simp [detailsWriteDoc, hd, hdm]
  · rw [if_neg hin, List.find?_append]
    have hnone : dl.find? (fun dd => dd.matchId == r.matchId) = none := by
      rw [List.find?_eq_none]
      intro x hx hpx
      exact hin (List.any_eq_true.2 ⟨x, hx, hpx⟩)
    rw [hnone]
    simp [detailsInsertDoc, hd, hdm]

/-! ## C5: the importer's success path -/

def c5Match : MatchDoc :=
  ⟨"m1", some "old", none, none, none, some "2024-05-05", 0, some 1, "queued", 2⟩

def c5Details : Details := ⟨"m1", some "det", "", "", [], "complete"⟩

def c5Entry : Entry := ⟨"m1", some 1, some c5Details, none, none⟩

/-- C5 counterexample: a success entry with no `dateInfo` does NOT leave the
match's existing `date` as it was — `date: result.dateInfo?.parsedDate || null`
overwrites it with `null`. -/
theorem C5_counterexample :
    c5Match.date = some "2024-05-05"
    ∧ (findMatch "m1" (importEntry ⟨[c5Match], []⟩ c5Entry).matchDocs).map MatchDoc.date
        = some none
    ∧ ¬ ((findMatch "m1" (importEntry ⟨[c5Match], []⟩ c5Entry).matchDocs).map MatchDoc.date
        = some c5Match.date) :=
  ⟨rfl, by decide, by decide⟩

theorem importIid_none (r : Entry) (h : r.dateInfo = none) :
    importIid r = r.details.map Details.internalId := by
  unfold importIid
  rw [h]

theorem importIid_some (r : Entry) (di : DateInfo) (h : r.dateInfo = some di) :
    importIid r = if di.properInternalId == "" then r.details.map Details.internalId
                  else some (some di.properInternalId) := by
  unfold importIid
  rw [h]

theorem importDate_none (r : Entry) (h : r.dateInfo = none) : importDate r = none := by
  unfold importDate
  rw [h]

theorem importDate_some (r : Entry) (di : DateInfo) (h : r.dateInfo = some di) :
    importDate r = if di.parsedDate == "" then none else some di.parsedDate := by
  unfold importDate
  rw [h]

/-- C5 (amended): for every success entry the importer advances the match to
`processingStatus = complete` and upserts the details document keyed by
`matchId`; `date`/`internalId` are taken from `dateInfo` when present, and
when `dateInfo` is absent `internalId` falls back to the details-embedded
`internalId` while `date` is overwritten with `null` (not preserved). -/
theorem C5_success_import_effect (s : Store) (r : Entry) (d : Details)
    (hr : r.error = none) (hd : r.details = some d) (hdm : d.matchId = r.matchId) :
    (∀ di, r.dateInfo = some di → di.properInternalId ≠ "" → di.parsedDate ≠ "" →
      findMatch r.matchId (importEntry s r).matchDocs
        = (findMatch r.matchId s.matchDocs).map
            (fun m => { m with
                          processingStatus := "complete"
                          date := some di.parsedDate
                          internalId := some di.properInternalId }))
    ∧ (r.dateInfo = none →
      findMatch r.matchId (importEntry s r).matchDocs
        = (findMatch r.matchId s.matchDocs).map
            (fun m => { m with
                          processingStatus := "complete"
                          date := none
                          internalId := d.internalId }))
    ∧ findDetails r.matchId (importEntry s r).detailDocs = some ⟨r.matchId, some d⟩ := by
  have herr : errTruthy r = false := by
    unfold errTruthy
    rw [hr]
  obtain ⟨iid, hiid⟩ : ∃ v, importIid r = some v := by
    cases hdi : r.dateInfo with
    | none =>
      rw [importIid_none r hdi, hd]
      exact ⟨d.internalId, rfl⟩
    | some di =>
      rw [importIid_some r di hdi]
      by_cases hq : (di.properInternalId == "") = true
      · rw [if_pos hq, hd]
        exact ⟨d.internalId, rfl⟩
      · rw [if_neg hq]
        exact ⟨some di.properInternalId, rfl⟩
  have hstep : importEntry s r =
      ⟨updateFirst (fun dd => dd.matchId == r.matchId)
         (successMatchSet (importDate r) iid) s.matchDocs,
       upsertDetails r s.detailDocs⟩ := by
    simp [importEntry, herr, hiid]
  have hpres : ∀ x : MatchDoc, (x.matchId == r.matchId) = true →
      ((successMatchSet (importDate r) iid x).matchId == r.matchId) = true :=
    fun x hx => hx
  refine ⟨?_, ?_, ?_⟩
  · intro di hdi h1 h2
    have hdate : importDate r = some di.parsedDate := by
      rw [importDate_some r di hdi, if_neg (by simp [h2])]
    have hiid2 : iid = some di.properInternalId := by
      have : importIid r = some (some di.properInternalId) := by
        rw [importIid_some r di hdi, if_neg (by simp [h1])]
      rw [this] at hiid
      exact (Option.some.inj hiid).symm
    rw [hstep]
    show (updateFirst _ _ s.matchDocs).find? _ = _
    rw [find?_updateFirst _ _ hpres, hdate, hiid2]
    rfl
  · intro hdi
    have hdate : importDate r = none := by
      exact importDate_none r hdi
    have hiid2 : iid = d.internalId := by
      have : importIid r = some d.internalId := by
        rw [importIid_none r hdi, hd]
        rfl
      rw [this] at hiid
      exact (Option.some.inj hiid).symm
    rw [hstep]
    show (updateFirst _ _ s.matchDocs).find? _ = _
    rw [find?_updateFirst _ _ hpres, hdate, hiid2]
    rfl
  · rw [hstep]
    exact findDetails_upsertDetails r d hd hdm s.detailDocs

/-- Witness for `C5_success_import_effect` at a concrete store and entry. -/
theorem C5_success_import_effect_witness :
    findDetails "m1" (importEntry ⟨[c5Match], []⟩ c5Entry).detailDocs
      = some ⟨"m1", some c5Details⟩ :=
  (C5_success_import_effect ⟨[c5Match], []⟩ c5Entry c5Details rfl rfl rfl).2.2

/-! ## C4: idempotence of the importer

The two collections evolve independently; `stepM`/`stepD` are the per-entry
effects of `importEntry` on each, and the import of a whole file is
characterised per `matchId` by the last entry of the file that writes that id. -/

def stepM (r : Entry) (ms : List MatchDoc) : List MatchDoc :=
  if errTruthy r then ms
  else
    match importIid r with
    | none => ms
    | some iid =>
      updateFirst (fun d => d.matchId == r.matchId)
        (successMatchSet (importDate r) iid) ms

def stepD (r : Entry) (dl : List DetailsDoc) : List DetailsDoc :=
  if errTruthy r then dl
  else
    match importIid r with
    | none => dl
    | some _ => upsertDetails r dl

def foldM (rs : List Entry) (ms : List MatchDoc) : List MatchDoc :=
  rs.foldl (fun ms r => stepM r ms) ms

def foldD (rs : List Entry) (dl : List DetailsDoc) : List DetailsDoc :=
  rs.foldl (fun dl r => stepD r dl) dl

theorem importEntry_components (s : Store) (r : Entry) :
    importEntry s r = ⟨stepM r s.matchDocs, stepD r s.detailDocs⟩ := by
  unfold importEntry stepM stepD
  cases herr : errTruthy r
  · cases hiid : importIid r <;> simp
  · simp

theorem importFile_components : ∀ (rs : List Entry) (s : Store),
    importFile s rs = ⟨foldM rs s.matchDocs, foldD rs s.detailDocs⟩ := by
  intro rs
  induction rs with
  | nil => intro s; rfl
  | cons r t ih =>
    intro s
    show importFile (importEntry s r) t = _
    rw [ih, importEntry_components]
    rfl

/-- Whether entry `r` writes the documents keyed `id`: it is taken by the
importer's success path and carries `matchId = id`. -/
def writesId (id : String) (r : Entry) : Bool :=
  !errTruthy r && (importIid r).isSome && (r.matchId == id)

/-- The last entry of the file that writes `id` (the one whose values the
store ends up with). -/
def lastWriterFor (id : String) : List Entry → Option Entry
  | [] => none
  | r :: t =>
    match lastWriterFor id t with
    | some r' => some r'
    | none => if writesId id r then some r else none

/-- The `$set` of entry `r` on a matches document, as a function. -/
def entryWriteFn (r : Entry) (m : MatchDoc) : MatchDoc :=
  successMatchSet (importDate r) ((importIid r).getD none) m

theorem entryWriteFn_absorb (r' r : Entry) (m : MatchDoc) :
    entryWriteFn r' (entryWriteFn r m) = entryWriteFn r' m := rfl

theorem entryWriteFn_matchId (r : Entry) (m : MatchDoc) :
    (entryWriteFn r m).matchId = m.matchId := rfl

theorem find?_updateFirst_untouched {α : Type} (p q : α → Bool) (f : α → α)
    (h : ∀ x, p x = true → (q x = false ∧ q (f x) = false)) :
    ∀ l : List α, (updateFirst p f l).find? q = l.find? q := by
  intro l
  induction l with
  | nil => rfl
  | cons x xs ih =>
    by_cases hx : p x = true
    · rw [updateFirst, if_pos hx, List.find?_cons_of_neg _ (by rw [(h x hx).2]; simp),
        List.find?_cons_of_neg _ (by rw [(h x hx).1]; simp)]
    · rw [updateFirst, if_neg hx]
      by_cases hq : q x = true
      · rw [List.find?_cons_of_pos _ hq, List.find?_cons_of_pos _ hq]
      · rw [List.find?_cons_of_neg _ hq, List.find?_cons_of_neg _ hq, ih]

theorem findMatch_stepM_untouched (id : String) (r : Entry)
    (h : writesId id r = false) (ms : List MatchDoc) :
    findMatch id (stepM r ms) = findMatch id ms := by
  unfold stepM
  cases herr : errTruthy r
  · cases hiid : importIid r with
    | none => simp
    | some iid =>
      simp only [Bool.false_eq_true, if_false]
      have hne : (r.matchId == id) = false := by
        unfold writesId at h
        rw [herr, hiid] at h
        simpa using h
      apply find?_updateFirst_untouched
      intro x hx
      constructor
      · have : x.matchId = r.matchId := eq_of_beq hx
        rw [this]
        exact hne
      · have : (successMatchSet (importDate r) iid x).matchId = r.matchId := eq_of_beq hx
        show ((successMatchSet (importDate r) iid x).matchId == id) = false
        rw [this]
        exact hne
  · simp

theorem findMatch_stepM_write (id : String) (r : Entry)
    (h : writesId id r = true) (ms : List MatchDoc) :
    findMatch id (stepM r ms) = (findMatch id ms).map (entryWriteFn r) := by
  have h1 : errTruthy r = false := by
    unfold writesId at h
    cases herr : errTruthy r
    · rfl
    · rw [herr] at h
      simp at h
  obtain ⟨iid, hiid⟩ : ∃ v, importIid r = some v := by
    unfold writesId at h
    cases hiid : importIid r
    · rw [hiid] at h
      simp at h
    · exact ⟨_, rfl⟩
  have h3 : r.matchId = id := by
    unfold writesId at h
    rw [h1, hiid] at h
    simp at h
    exact h
  unfold stepM
  rw [h1, hiid]
  simp only [Bool.false_eq_true, if_false]
  subst h3
  unfold findMatch
  rw [find?_updateFirst (fun d => d.matchId == r.matchId)
    (successMatchSet (importDate r) iid) (fun x hx => hx)]
  have : entryWriteFn r = successMatchSet (importDate r) iid := by
    unfold entryWriteFn
    rw [hiid]
    rfl
  rw [this]

theorem findMatch_foldM (id : String) : ∀ (rs : List Entry) (ms : List MatchDoc),
    findMatch id (foldM rs ms) =
      match lastWriterFor id rs with
      | some r => (findMatch id ms).map (entryWriteFn r)
      | none => findMatch id ms := by
  intro rs
  induction rs with
  | nil => intro ms; rfl
  | cons r t ih =>
    intro ms
    show findMatch id (foldM t (stepM r ms)) = _
    rw [ih (stepM r ms)]
    cases hlt : lastWriterFor id t with
    | some r1 =>
      have hthis : lastWriterFor id (r :: t) = some r1 := by
        unfold lastWriterFor
        rw [hlt]
      simp only [hthis]
      by_cases hw : writesId id r = true
      · rw [findMatch_stepM_write id r hw ms, Option.map_map]
        congr 1
      · rw [findMatch_stepM_untouched id r (Bool.eq_false_iff.2 hw) ms]
    | none =>
      have hlrt : lastWriterFor id (r :: t) = if writesId id r then some r else none := by
        unfold lastWriterFor
        rw [hlt]
      by_cases hw : writesId id r = true
      · simp only [hlrt, if_pos hw]
        exact findMatch_stepM_write id r hw ms
      · simp only [hlrt, if_neg hw]
        exact findMatch_stepM_untouched id r (Bool.eq_false_iff.2 hw) ms

theorem writesId_spec {id : String} {r : Entry} (h : writesId id r = true) :
    errTruthy r = false ∧ (∃ v, importIid r = some v) ∧ r.matchId = id := by
  unfold writesId at h
  have h1 : errTruthy r = false := by
    cases herr : errTruthy r
    · rfl
    · rw [herr] at h
      simp at h
  have h2 : ∃ v, importIid r = some v := by
    cases hiid : importIid r
    · rw [hiid] at h
      simp at h
    · exact ⟨_, rfl⟩
  obtain ⟨v, hv⟩ := h2
  have h3 : r.matchId = id := by
    rw [h1, hv] at h
    simp at h
    exact h
  exact ⟨h1, ⟨v, hv⟩, h3⟩

theorem findDetails_stepD_untouched (id : String) (r : Entry)
    (hwfr : errTruthy r = false → ∃ d, r.details = some d ∧ d.matchId = r.matchId)
    (h : writesId id r = false) (dl : List DetailsDoc) :
    findDetails id (stepD r dl) = findDetails id dl := by
  unfold stepD
  cases herr : errTruthy r
  · cases hiid : importIid r with
    | none => simp
    | some iid =>
      simp only [Bool.false_eq_true, if_false]
      have hne : (r.matchId == id) = false := by
        unfold writesId at h
        rw [herr, hiid] at h
        simpa using h
      obtain ⟨d, hd, hdm⟩ := hwfr herr
      unfold upsertDetails
      by_cases hin : dl.any (fun dd => dd.matchId == r.matchId) = true
      · rw [if_pos hin]
        apply find?_updateFirst_untouched
        intro x hx
        constructor
        · show (x.matchId == id) = false
          rw [eq_of_beq hx]
          exact hne
        · show ((detailsWriteDoc r x).matchId == id) = false
          unfold detailsWriteDoc
          rw [hd]
          show (d.matchId == id) = false
          rw [hdm]
          exact hne
      · rw [if_neg hin]
        unfold findDetails
        rw [List.find?_append]
        have hlast : [detailsInsertDoc r].find? (fun dd => dd.matchId == id) = none := by
          have hkey : (detailsInsertDoc r).matchId = r.matchId := by
            unfold detailsInsertDoc
            rw [hd]
            exact hdm
          rw [List.find?_cons_of_neg _ (by rw [hkey, hne]; simp)]
          rfl
        rw [hlast]
        exact Option.or_none
  · simp

theorem findDetails_stepD_write (id : String) (r : Entry)
    (hwfr : errTruthy r = false → ∃ d, r.details = some d ∧ d.matchId = r.matchId)
    (h : writesId id r = true) (dl : List DetailsDoc) :
    findDetails id (stepD r dl) = some (detailsInsertDoc r) := by
  obtain ⟨h1, ⟨iid, hiid⟩, h3⟩ := writesId_spec h
  obtain ⟨d, hd, hdm⟩ := hwfr h1
  unfold stepD
  rw [h1, hiid]
  simp only [Bool.false_eq_true, if_false]
  subst h3
  rw [findDetails_upsertDetails r d hd hdm dl]
  show some (⟨r.matchId, some d⟩ : DetailsDoc) = some (detailsInsertDoc r)
  unfold detailsInsertDoc
  rw [hd]
  show some (⟨r.matchId, some d⟩ : DetailsDoc) = some (⟨d.matchId, some d⟩ : DetailsDoc)
  rw [hdm]

theorem findDetails_foldD (id : String) : ∀ (rs : List Entry) (dl : List DetailsDoc),
    (∀ r ∈ rs, errTruthy r = false → ∃ d, r.details = some d ∧ d.matchId = r.matchId) →
    findDetails id (foldD rs dl) =
      match lastWriterFor id rs with
      | some r => some (detailsInsertDoc r)
      | none => findDetails id dl := by
  intro rs
  induction rs with
  | nil => intro dl _; rfl
  | cons r t ih =>
    intro dl hwf
    have hwfr := hwf r (by simp)
    have hwft : ∀ x ∈ t, errTruthy x = false → ∃ d, x.details = some d ∧ d.matchId = x.matchId :=
      fun x hx => hwf x (by simp [hx])
    show findDetails id (foldD t (stepD r dl)) = _
    rw [ih (stepD r dl) hwft]
    cases hlt : lastWriterFor id t with
    | some r1 =>
      have hthis : lastWriterFor id (r :: t) = some r1 := by
        unfold lastWriterFor
        rw [hlt]
      simp only [hthis]
    | none =>
      have hlrt : lastWriterFor id (r :: t) = if writesId id r then some r else none := by
        unfold lastWriterFor
        rw [hlt]
      by_cases hw : writesId id r = true
      · simp only [hlrt, if_pos hw]
        exact findDetails_stepD_write id r hwfr hw dl
      · simp only [hlrt, if_neg hw]
        exact findDetails_stepD_untouched id r hwfr (Bool.eq_false_iff.2 hw) dl

/-- C4: importing the same result file twice is observationally idempotent:
for every `matchId`, the second run changes neither the match document
(status, date, internalId, attempt counter — all of it) nor the details
document established by the first run.  `hwf` states that the file respects
the §6 result-file interface: a success entry carries a details payload whose
embedded `matchId` is the entry's. -/
theorem C4_import_idempotent (s : Store) (rs : List Entry)
    (hwf : ∀ r ∈ rs, errTruthy r = false → ∃ d, r.details = some d ∧ d.matchId = r.matchId) :
    ∀ id : String,
      findMatch id (importFile (importFile s rs) rs).matchDocs
        = findMatch id (importFile s rs).matchDocs
      ∧ findDetails id (importFile (importFile s rs) rs).detailDocs
        = findDetails id (importFile s rs).detailDocs := by
  intro id
  rw [importFile_components rs s,
    importFile_components rs ⟨foldM rs s.matchDocs, foldD rs s.detailDocs⟩]
  constructor
  · show findMatch id (foldM rs (foldM rs s.matchDocs)) = findMatch id (foldM rs s.matchDocs)
    have k1 := findMatch_foldM id rs (foldM rs s.matchDocs)
    have k2 := findMatch_foldM id rs s.matchDocs
    cases hl : lastWriterFor id rs with
    | none =>
      simp only [hl] at k1
      exact k1
    | some r =>
      simp only [hl] at k1 k2
      rw [k1, k2, Option.map_map]
      congr 1
  · show findDetails id (foldD rs (foldD rs s.detailDocs)) = findDetails id (foldD rs s.detailDocs)
    have k1 := findDetails_foldD id rs (foldD rs s.detailDocs) hwf
    have k2 := findDetails_foldD id rs s.detailDocs hwf
    cases hl : lastWriterFor id rs with
    | none =>
      simp only [hl] at k1
      exact k1
    | some r =>
      simp only [hl] at k1 k2
      rw [k1, k2]

/-- Witness for `C4_import_idempotent` at a concrete store and file. -/
theorem C4_import_idempotent_witness :
    findMatch "m1" (importFile (importFile ⟨[c5Match], []⟩ [c5Entry]) [c5Entry]).matchDocs
      = findMatch "m1" (importFile ⟨[c5Match], []⟩ [c5Entry]).matchDocs :=
  (C4_import_idempotent ⟨[c5Match], []⟩ [c5Entry]
    (by
      intro r hr herr
      rw [List.mem_singleton] at hr
      subst hr
      exact ⟨c5Details, rfl, rfl⟩) "m1").1

/-! ## The Batch Partitioner/Exporter (`export-batches.js`)

The cursor query runs against a snapshot of the collection (each flush's
`updateMany` only touches `matchId`s the cursor has already emitted). -/

structure ShardRow where
  scrapeId : Option Nat
  matchId : String
deriving Repr, DecidableEq

/-- `.project({scrapeId:1, matchId:1, _id:0})`. -/
def projectRow (d : MatchDoc) : ShardRow := ⟨d.scrapeId, d.matchId⟩

/-- The partitioner's query: `processingStatus: 'pending'`, plus
`scrapeId: {$gte: START}` when `START` is non-zero (a missing `scrapeId`
never satisfies `$gte`), and `$nin` exclusions for `country`/`league` (added
only when non-empty, but `$nin []` matches everything anyway). -/
def exportQuery (start : Nat) (exC exL : List String) (d : MatchDoc) : Bool :=
  d.processingStatus == "pending"
  && (start == 0 || d.scrapeId.any (fun n => start ≤ n))
  && exC.all (fun c => !(d.country == some c))
  && exL.all (fun c => !(d.league == some c))

/-- `.sort({scrapeId:1})` with Mongo's missing-before-numbers ordering,
encoded through a key that sends a missing `scrapeId` below every value. -/
def scrapeKey (d : MatchDoc) : Nat :=
  match d.scrapeId with
  | none => 0
  | some n => n + 1

def scrapeIdLe (a b : MatchDoc) : Prop := scrapeKey a ≤ scrapeKey b

instance : DecidableRel scrapeIdLe := fun a b => Nat.decLe _ _

/-- A flush's `updateMany({matchId: {$in: ids}}, {$set: {processingStatus:
'queued'}})` — a plain status write, with no `$inc` of `processingAttempts`. -/
def markQueued (ids : List String) (ms : List MatchDoc) : List MatchDoc :=
  ms.map (fun d => if ids.contains d.matchId
    then { d with processingStatus := "queued" } else d)

/-- The export loop: push each selected row into `buf`, flush when `buf`
reaches `limit`, flush the remainder after the loop.  `ok n` says whether
persisting the `n`-th shard file (1-based) succeeds; a failed `fs.writeFile`
throws and aborts the script before that shard's `updateMany` runs (the
returned flag records the abort).  Result: (shard files written, matches
collection, aborted). -/
def exportGo (limit : Nat) (ok : Nat → Bool) :
    List MatchDoc → List (List ShardRow) → List ShardRow → List MatchDoc →
    List (List ShardRow) × List MatchDoc × Bool
  | [], files, buf, ms =>
    if buf.isEmpty then (files, ms, false)
    else if ok (files.length + 1) then
      (files ++ [buf], markQueued (buf.map ShardRow.matchId) ms, false)
    else (files, ms, true)
  | d :: docs, files, buf, ms =>
    if (buf ++ [projectRow d]).length == limit then
      if ok (files.length + 1) then
        exportGo limit ok docs (files ++ [buf ++ [projectRow d]]) []
          (markQueued ((buf ++ [projectRow d]).map ShardRow.matchId) ms)
      else (files, ms, true)
    else exportGo limit ok docs files (buf ++ [projectRow d]) ms

/-- One partitioner run over the matches collection. -/
def runExport (limit start : Nat) (exC exL : List String) (ok : Nat → Bool)
    (ms : List MatchDoc) : List (List ShardRow) × List MatchDoc × Bool :=
  exportGo limit ok
    (List.insertionSort scrapeIdLe (ms.filter (exportQuery start exC exL)))
    [] [] ms

/-- Reference chunking: greedy groups of `limit`, continuing a partial `buf`. -/
def chunksFrom (limit : Nat) : List ShardRow → List ShardRow → List (List ShardRow)
  | buf, [] => if buf.isEmpty then [] else [buf]
  | buf, r :: rest =>
    if (buf ++ [r]).length == limit then (buf ++ [r]) :: chunksFrom limit [] rest
    else chunksFrom limit (buf ++ [r]) rest

theorem markQueued_nil (ms : List MatchDoc) : markQueued [] ms = ms := by
  unfold markQueued
  simp

theorem markQueued_markQueued (a b : List String) (ms : List MatchDoc) :
    markQueued a (markQueued b ms) = markQueued (b ++ a) ms := by
  unfold markQueued
  rw [List.map_map]
  apply List.map_congr_left
  intro d _
  simp only [Function.comp_apply]
  by_cases hb : d.matchId ∈ b <;> by_cases ha : d.matchId ∈ a <;>
    simp [hb, ha, List.mem_append]

theorem chunksFrom_join (limit : Nat) : ∀ (l buf : List ShardRow),
    (chunksFrom limit buf l).join = buf ++ l := by
  intro l
  induction l with
  | nil =>
    intro buf
    rw [chunksFrom]
    by_cases hb : buf.isEmpty = true
    · simp [hb, List.isEmpty_iff.1 hb]
    · simp [hb]
  | cons r rest ih =>
    intro buf
    rw [chunksFrom]
    by_cases hl : (buf ++ [r]).length = limit
    · simp [hl, ih]
    · have hl' : ¬(buf.length + 1 = limit) := by simpa using hl
      simp [hl', ih]

theorem chunksFrom_sizes (limit : Nat) : ∀ (l buf : List ShardRow),
    buf.length < limit →
    ∀ f ∈ (chunksFrom limit buf l).dropLast, f.length = limit := by
  intro l
  induction l with
  | nil =>
    intro buf _ f hf
    rw [chunksFrom] at hf
    by_cases hb : buf.isEmpty = true
    · simp [hb] at hf
    · simp [hb] at hf
  | cons r rest ih =>
    intro buf hbuf f hf
    rw [chunksFrom] at hf
    by_cases hl : ((buf ++ [r]).length == limit) = true
    · rw [if_pos hl] at hf
      cases hc : chunksFrom limit [] rest with
      | nil =>
        rw [hc] at hf
        simp at hf
      | cons c cs =>
        rw [hc] at hf
        rw [List.dropLast_cons₂] at hf
        rcases List.mem_cons.1 hf with hf1 | hf2
        · rw [hf1]
          simpa using hl
        · have hlim : 0 < limit := by
            omega
          refine ih [] (by simpa using hlim) f ?_
          rw [hc]
          exact hf2
    · rw [if_neg hl] at hf
      refine ih (buf ++ [r]) ?_ f hf
      have hlen : (buf ++ [r]).length = buf.length + 1 := by simp
      have hle : buf.length + 1 ≤ limit := Nat.succ_le_of_lt hbuf
      have hne : buf.length + 1 ≠ limit := by
        intro h
        apply hl
        rw [hlen, h]
        simp
      rw [hlen]
      exact Nat.lt_of_le_of_ne hle hne

theorem exportGo_allok (limit : Nat) : ∀ (docs : List MatchDoc)
    (files : List (List ShardRow)) (buf : List ShardRow) (ms : List MatchDoc),
    exportGo limit (fun _ => true) docs files buf ms
      = (files ++ chunksFrom limit buf (docs.map projectRow),
         markQueued ((chunksFrom limit buf (docs.map projectRow)).join.map ShardRow.matchId) ms,
         false) := by
  intro docs
  induction docs with
  | nil =>
    intro files buf ms
    rw [exportGo, List.map_nil, chunksFrom]
    by_cases hb : buf.isEmpty = true
    · simp [hb, markQueued_nil]
    · simp [hb]
  | cons d rest ih =>
    intro files buf ms
    rw [exportGo, List.map_cons, chunksFrom]
    by_cases hl : ((buf ++ [projectRow d]).length == limit) = true
    · rw [if_pos hl, if_pos rfl, if_pos hl, ih]
      rw [markQueued_markQueued]
      simp [List.append_assoc]
    · rw [if_neg hl, if_neg hl, ih]

theorem exportGo_marks (limit : Nat) (ok : Nat → Bool) : ∀ (docs : List MatchDoc)
    (files : List (List ShardRow)) (buf : List ShardRow) (ms : List MatchDoc),
    ∃ F ab, exportGo limit ok docs files buf ms
      = (files ++ F, markQueued (F.join.map ShardRow.matchId) ms, ab) := by
  intro docs
  induction docs with
  | nil =>
    intro files buf ms
    rw [exportGo]
    by_cases hb : buf.isEmpty = true
    · exact ⟨[], false, by simp [hb, markQueued_nil]⟩
    · by_cases hok : ok (files.length + 1) = true
      · exact ⟨[buf], false, by simp [hb, hok]⟩
      · exact ⟨[], true, by simp [hb, hok, markQueued_nil]⟩
  | cons d rest ih =>
    intro files buf ms
    rw [exportGo]
    by_cases hl : ((buf ++ [projectRow d]).length == limit) = true
    · rw [if_pos hl]
      by_cases hok : ok (files.length + 1) = true
      · rw [if_pos hok]
        obtain ⟨F, ab, hF⟩ := ih (files ++ [buf ++ [projectRow d]]) []
          (markQueued ((buf ++ [projectRow d]).map ShardRow.matchId) ms)
        refine ⟨(buf ++ [projectRow d]) :: F, ab, ?_⟩
        rw [hF, markQueued_markQueued]
        simp [List.append_assoc]
      · rw [if_neg hok]
        exact ⟨[], true, by simp [markQueued_nil]⟩
    · rw [if_neg hl]
      exact ih files (buf ++ [projectRow d]) ms

/-- C9: one partitioner run over a snapshot of the collection: the shard
files partition exactly the records matching the export filter (pending,
`scrapeId ≥ start`, exclusions), every shard but possibly the last holds
exactly `limit` records, no record is in two shards, and — for every pattern
of shard-file persistence failures — the records marked `queued` are exactly
those of the shard files actually written (a shard that failed to persist
marks nothing, and the run aborts). -/
theorem C9_partition (limit start : Nat) (exC exL : List String) (ms : List MatchDoc)
    (hlim : 0 < limit) (hnd : (ms.map MatchDoc.matchId).Nodup) :
    ((runExport limit start exC exL (fun _ => true) ms).1.join).Perm
        ((ms.filter (exportQuery start exC exL)).map projectRow)
    ∧ ((((runExport limit start exC exL (fun _ => true) ms).1.join).map
          ShardRow.matchId).Nodup)
    ∧ (∀ f ∈ (runExport limit start exC exL (fun _ => true) ms).1.dropLast,
          f.length = limit)
    ∧ (∀ ok : Nat → Bool,
        (runExport limit start exC exL ok ms).2.1
          = markQueued (((runExport limit start exC exL ok ms).1.join).map
              ShardRow.matchId) ms) := by
  have hperm : (List.insertionSort scrapeIdLe
      (ms.filter (exportQuery start exC exL))).Perm
      (ms.filter (exportQuery start exC exL)) :=
    List.perm_insertionSort _ _
  have hrun : runExport limit start exC exL (fun _ => true) ms
      = (chunksFrom limit []
           ((List.insertionSort scrapeIdLe
              (ms.filter (exportQuery start exC exL))).map projectRow),
         markQueued (((chunksFrom limit []
           ((List.insertionSort scrapeIdLe
              (ms.filter (exportQuery start exC exL))).map projectRow)).join).map
            ShardRow.matchId) ms,
         false) := by
    unfold runExport
    rw [exportGo_allok]
    simp
  have hjoin : (runExport limit start exC exL (fun _ => true) ms).1.join
      = (List.insertionSort scrapeIdLe
          (ms.filter (exportQuery start exC exL))).map projectRow := by
    rw [hrun]
    show (chunksFrom limit [] _).join = _
    rw [chunksFrom_join]
    rfl
  refine ⟨?_, ?_, ?_, ?_⟩
  · rw [hjoin]
    exact hperm.map projectRow
  · rw [hjoin]
    have : ((List.insertionSort scrapeIdLe
        (ms.filter (exportQuery start exC exL))).map projectRow).map ShardRow.matchId
        = (List.insertionSort scrapeIdLe
            (ms.filter (exportQuery start exC exL))).map MatchDoc.matchId := by
      rw [List.map_map]
      rfl
    rw [this]
    have hsub : ((ms.filter (exportQuery start exC exL)).map MatchDoc.matchId).Sublist
        (ms.map MatchDoc.matchId) :=
      (List.filter_sublist ms).map MatchDoc.matchId
    exact ((hperm.map MatchDoc.matchId).nodup_iff).2 (hnd.sublist hsub)
  · intro f hf
    rw [hrun] at hf
    exact chunksFrom_sizes limit _ [] (by simpa using hlim) f hf
  · intro ok
    obtain ⟨F, ab, hF⟩ := exportGo_marks limit ok
      (List.insertionSort scrapeIdLe (ms.filter (exportQuery start exC exL))) [] [] ms
    unfold runExport
    rw [hF]
    simp

/-! ## C3: the end-to-end export/import scenario -/

def c3Doc (i : Nat) (id : String) : MatchDoc :=
  ⟨id, none, none, none, none, none, i, some i, "pending", 0⟩

def c3Docs : List MatchDoc :=
  [c3Doc 1 "m1", c3Doc 2 "m2", c3Doc 3 "m3", c3Doc 4 "m4", c3Doc 5 "m5"]

def c3D1 : Details := ⟨"m1", some "iid1", "", "", [], "complete"⟩

def c3D2 : Details := ⟨"m2", some "iid2", "", "", [], "complete"⟩

def c3Results : List Entry :=
  [⟨"m1", some 1, some c3D1, some ⟨"2025-01-01", "iid1"⟩, none⟩,
   ⟨"m2", some 2, some c3D2, some ⟨"2025-01-02", "iid2"⟩, none⟩,
   ⟨"m3", some 3, none, none, some "timeout"⟩]

/-- The store after exporting with `limit = 2` and importing the result file
(2 successes, 1 error). -/
def c3Final : Store :=
  importFile ⟨(runExport 2 0 [] [] (fun _ => true) c3Docs).2.1, []⟩ c3Results

/-- C3 counterexample: the scenario produces 3 shard files of sizes 2,2,1 and
the right statuses, but the errored match's `processingAttempts` is NOT one
greater than before the export — it is unchanged (the export's queue-marking
is a plain `$set` with no `$inc`, and the importer skips error entries). -/
theorem C3_counterexample :
    (runExport 2 0 [] [] (fun _ => true) c3Docs).1
      = [[⟨some 1, "m1"⟩, ⟨some 2, "m2"⟩], [⟨some 3, "m3"⟩, ⟨some 4, "m4"⟩],
         [⟨some 5, "m5"⟩]]
    ∧ (findMatch "m3" c3Final.matchDocs).map MatchDoc.processingAttempts = some 0
    ∧ ¬ ((findMatch "m3" c3Final.matchDocs).map MatchDoc.processingAttempts
          = some (0 + 1)) :=
  ⟨by decide, by decide, by decide⟩

/-- C3 (amended): export with `limit = 2` over 5 pending matches yields 3
shard files of sizes 2,2,1; importing a result file with 2 successes and 1
error leaves the two successful matches `complete` and the errored match
untouched — still `queued`, with its `processingAttempts` unchanged. -/
theorem C3_end_to_end :
    (runExport 2 0 [] [] (fun _ => true) c3Docs).1
      = [[⟨some 1, "m1"⟩, ⟨some 2, "m2"⟩], [⟨some 3, "m3"⟩, ⟨some 4, "m4"⟩],
         [⟨some 5, "m5"⟩]]
    ∧ (∀ d ∈ (runExport 2 0 [] [] (fun _ => true) c3Docs).2.1,
        d.processingStatus = "queued")
    ∧ (findMatch "m1" c3Final.matchDocs).map MatchDoc.processingStatus = some "complete"
    ∧ (findMatch "m2" c3Final.matchDocs).map MatchDoc.processingStatus = some "complete"
    ∧ (findMatch "m3" c3Final.matchDocs).map MatchDoc.processingStatus = some "queued"
    ∧ (findMatch "m3" c3Final.matchDocs).map MatchDoc.processingAttempts
        = (findMatch "m3" c3Docs).map MatchDoc.processingAttempts :=
  ⟨by decide, by decide, by decide, by decide, by decide, by decide⟩

/-- Witness for `C9_partition` at the concrete 5-match collection. -/
theorem C9_partition_witness :
    ((runExport 2 0 [] [] (fun _ => true) c3Docs).1.join).Perm
      ((c3Docs.filter (exportQuery 0 [] [])).map projectRow) :=
  (C9_partition 2 0 [] [] c3Docs (by decide) (by decide)).1

/-! ## `saveMatches` (`database.js` lines 76-111) -/

/-- What the driver reports for an `insertMany(..., {ordered:false})` call:
an error code (`none` on success) and the number of documents inserted. -/
structure InsertOutcome where
  code : Option Nat
  nInserted : Nat
deriving Repr, DecidableEq

/-- `insertMany` with `ordered:false` against the unique `matchId` index:
each record inserts unless its `matchId` duplicates an existing document or
an earlier record of the batch; a duplicate is skipped, recorded as error
code 11000, and does not stop the remaining inserts.  (`nInserted` follows
the legacy `BulkWriteError` shape the code reads through
`err.result?.result?.nInserted`.) -/
def insertManyGo (existing : List String) (n : Nat) (dup : Bool) :
    List MatchDoc → InsertOutcome
  | [] => ⟨if dup then some 11000 else none, n⟩
  | r :: rest =>
    if existing.contains r.matchId then insertManyGo existing n true rest
    else insertManyGo (existing ++ [r.matchId]) (n + 1) dup rest

def runInsertMany (existing : List String) (recs : List MatchDoc) : InsertOutcome :=
  insertManyGo existing 0 false recs

/-- The `matchId`s actually added to the store by the bulk insert. -/
def freshIds (existing : List String) : List MatchDoc → List String
  | [] => []
  | r :: rest =>
    if existing.contains r.matchId then freshIds existing rest
    else r.matchId :: freshIds (existing ++ [r.matchId]) rest

/-- `saveMatches` from `database.js`: empty input returns 0 after a warning;
otherwise the insert runs and a caught error with `code === 11000` swallows
the duplicates and returns the reported inserted count, while any other
error is re-thrown (`Except.error`). -/
def saveMatches (recs : List MatchDoc) (outcome : InsertOutcome) : Except Nat Nat :=
  if recs.isEmpty then .ok 0
  else
    match outcome.code with
    | none => .ok outcome.nInserted
    | some c => if c = 11000 then .ok outcome.nInserted else .error c

theorem insertManyGo_nInserted : ∀ (recs : List MatchDoc) (existing : List String)
    (n : Nat) (dup : Bool),
    (insertManyGo existing n dup recs).nInserted = n + (freshIds existing recs).length := by
  intro recs
  induction recs with
  | nil => intro existing n dup; simp [insertManyGo, freshIds]
  | cons r rest ih =>
    intro existing n dup
    rw [insertManyGo, freshIds]
    by_cases hc : existing.contains r.matchId = true
    · rw [if_pos hc, if_pos hc, ih]
    · rw [if_neg hc, if_neg hc, ih]
      simp
      omega

theorem insertManyGo_code : ∀ (recs : List MatchDoc) (existing : List String)
    (n : Nat) (dup : Bool),
    (insertManyGo existing n dup recs).code = none
    ∨ (insertManyGo existing n dup recs).code = some 11000 := by
  intro recs
  induction recs with
  | nil =>
    intro existing n dup
    cases dup
    · left; rfl
    · right; rfl
  | cons r rest ih =>
    intro existing n dup
    rw [insertManyGo]
    by_cases hc : existing.contains r.matchId = true
    · rw [if_pos hc]; exact ih _ _ _
    · rw [if_neg hc]; exact ih _ _ _

/-- C7: bulk insert has partial-success semantics: on a batch with duplicate
keys `saveMatches` does not throw and returns the count actually inserted
(e.g. 5 records with 2 duplicates yield `ok 3`), while an error with any
non-duplicate-key code propagates to the caller. -/
theorem C7_saveMatches_partial_success :
    (∀ (existing : List String) (recs : List MatchDoc), recs ≠ [] →
      saveMatches recs (runInsertMany existing recs)
        = .ok (freshIds existing recs).length)
    ∧ saveMatches
        [c3Doc 1 "a", c3Doc 2 "b", c3Doc 3 "c", c3Doc 4 "d", c3Doc 5 "e"]
        (runInsertMany ["b", "d"]
          [c3Doc 1 "a", c3Doc 2 "b", c3Doc 3 "c", c3Doc 4 "d", c3Doc 5 "e"])
        = .ok 3
    ∧ (∀ (recs : List MatchDoc) (outcome : InsertOutcome) (c : Nat),
        recs ≠ [] → outcome.code = some c → c ≠ 11000 →
        saveMatches recs outcome = .error c) := by
  refine ⟨?_, by rfl, ?_⟩
  · intro existing recs hne
    unfold saveMatches
    rw [if_neg (by simpa using hne)]
    have hn := insertManyGo_nInserted recs existing 0 false
    rcases insertManyGo_code recs existing 0 false with hc | hc
    · show (match (runInsertMany existing recs).code with
        | none => Except.ok (runInsertMany existing recs).nInserted
        | some c => if c = 11000 then Except.ok (runInsertMany existing recs).nInserted
                    else Except.error c) = _
      rw [show (runInsertMany existing recs).code = none from hc]
      unfold runInsertMany
      rw [hn]
      simp
    · show (match (runInsertMany existing recs).code with
        | none => Except.ok (runInsertMany existing recs).nInserted
        | some c => if c = 11000 then Except.ok (runInsertMany existing recs).nInserted
                    else Except.error c) = _
      rw [show (runInsertMany existing recs).code = some 11000 from hc]
      unfold runInsertMany
      simp [hn]
  · intro recs outcome c hne hc hcode
    unfold saveMatches
    rw [if_neg (by simpa using hne), hc]
    simp [hcode]

/-- Witness for `C7_saveMatches_partial_success` at concrete inputs. -/
theorem C7_saveMatches_partial_success_witness :
    saveMatches [c3Doc 1 "a"] (runInsertMany [] [c3Doc 1 "a"]) = .ok 1
    ∧ saveMatches [c3Doc 1 "a"] ⟨some 7, 0⟩ = .error 7 :=
  ⟨C7_saveMatches_partial_success.1 [] [c3Doc 1 "a"] (by decide),
   C7_saveMatches_partial_success.2.2 [c3Doc 1 "a"] ⟨some 7, 0⟩ 7 (by decide) rfl (by decide)⟩

/-! ## The Shard Workers (`scrape-batch.js`, `scrape-batch-with-mem.js`)

The external scrape step is an opaque per-match outcome: either a summary
(as returned by `extractMatchSummary`) or a thrown error message. -/

structure Summary where
  basicInfo : String
  teams : String
  events : Option (List Event)
  dateInfo : Option DateInfo
deriving Repr, DecidableEq

inductive ScrapeOutcome
  | ok (s : Summary)
  | fail (msg : String)
deriving Repr, DecidableEq

/-- `createMatchDetails({matchId, internalId: summary.dateInfo?.properInternalId,
basicInfo, teams, events: summary.events || [], processingStatus: 'complete'})`.
An `undefined` `internalId` is dropped by `JSON.stringify`, hence `none`. -/
def mkWorkerDetails (matchId : String) (s : Summary) : Details :=
  { matchId := matchId
    internalId := s.dateInfo.map DateInfo.properInternalId
    basicInfo := s.basicInfo
    teams := s.teams
    events := s.events.getD []
    processingStatus := "complete" }

/-- The result list of `scrape-batch.js` (src/unnamed/part_000): success
pushes `{matchId, scrapeId, details, dateInfo}`, failure pushes
`{matchId, scrapeId, error}`, and the loop never aborts the shard. -/
def runScrapeBatch (outcome : String → ScrapeOutcome) (batch : List ShardRow) :
    List Entry :=
  batch.map (fun row =>
    match outcome row.matchId with
    | .ok s => ⟨row.matchId, row.scrapeId, some (mkWorkerDetails row.matchId s),
        s.dateInfo, none⟩
    | .fail m => ⟨row.matchId, row.scrapeId, none, none, some m⟩)

/-- The result list of `scrape-batch-with-mem.js`: its success push is
`results.push({ matchId, scrapeId })` — the computed `details` is dropped. -/
def runScrapeBatchWithMem (outcome : String → ScrapeOutcome) (batch : List ShardRow) :
    List Entry :=
  batch.map (fun row =>
    match outcome row.matchId with
    | .ok _ => ⟨row.matchId, row.scrapeId, none, none, none⟩
    | .fail m => ⟨row.matchId, row.scrapeId, none, none, some m⟩)

/-- C6 counterexample: the `scrape-batch-with-mem.js` worker emits, for a
successful match, an entry with NEITHER `details` nor `error` — violating
the exactly-one-of interface. -/
theorem C6_counterexample :
    runScrapeBatchWithMem (fun _ => .ok ⟨"", "", none, none⟩) [⟨some 1, "m1"⟩]
      = [⟨"m1", some 1, none, none, none⟩]
    ∧ ((runScrapeBatchWithMem (fun _ => .ok ⟨"", "", none, none⟩)
          [⟨some 1, "m1"⟩]).all
        (fun e => (e.details.isSome && e.error.isNone)
          || (e.details.isNone && e.error.isSome))) = false :=
  ⟨by decide, by decide⟩

/-- C6 (amended): every entry emitted by the `scrape-batch.js` worker carries
exactly one of `details`/`error`: a success entry has a details payload whose
embedded `matchId` is the entry's and no `error`; a failure entry has no
`details`, no `dateInfo`, and an `error` message.  (The `with-mem` variant
violates this: its success entries carry neither.) -/
theorem C6_scrape_batch_exactly_one (outcome : String → ScrapeOutcome)
    (batch : List ShardRow) :
    ∀ e ∈ runScrapeBatch outcome batch,
      ((∃ d, e.details = some d ∧ d.matchId = e.matchId) ∧ e.error = none)
      ∨ (e.details = none ∧ (∃ m, e.error = some m) ∧ e.dateInfo = none) := by
  intro e he
  obtain ⟨row, _, heq⟩ := List.mem_map.1 he
  cases h : outcome row.matchId with
  | ok s =>
    rw [h] at heq
    left
    rw [← heq]
    exact ⟨⟨mkWorkerDetails row.matchId s, rfl, rfl⟩, rfl⟩
  | fail m =>
    rw [h] at heq
    right
    rw [← heq]
    exact ⟨rfl, ⟨m, rfl⟩, rfl⟩

/-- Witness for `C6_scrape_batch_exactly_one` at a concrete shard. -/
theorem C6_scrape_batch_exactly_one_witness :
    ((∃ d, (Entry.mk "m1" (some 1) (some (mkWorkerDetails "m1" ⟨"", "", none, none⟩))
        none none).details = some d ∧ d.matchId = "m1")
      ∧ (Entry.mk "m1" (some 1) (some (mkWorkerDetails "m1" ⟨"", "", none, none⟩))
          none none).error = none)
    ∨ ((Entry.mk "m1" (some 1) (some (mkWorkerDetails "m1" ⟨"", "", none, none⟩))
          none none).details = none
      ∧ (∃ m, (Entry.mk "m1" (some 1) (some (mkWorkerDetails "m1" ⟨"", "", none, none⟩))
          none none).error = some m)
      ∧ (Entry.mk "m1" (some 1) (some (mkWorkerDetails "m1" ⟨"", "", none, none⟩))
          none none).dateInfo = none) :=
  C6_scrape_batch_exactly_one (fun _ => .ok ⟨"", "", none, none⟩) [⟨some 1, "m1"⟩]
    (Entry.mk "m1" (some 1) (some (mkWorkerDetails "m1" ⟨"", "", none, none⟩)) none none)
    (by decide)

/-! ## `getMatchesForProcessing` (`database.js` lines 182-246) -/

/-- The `status` option: a single value (equality) or an array (`$in`). -/
inductive StatusCond
  | one (s : String)
  | many (l : List String)
deriving Repr, DecidableEq

structure GmOptions where
  status : StatusCond
  country : Option String
  league : Option String
  team : Option String
  limit : Nat
  maxAttempts : Nat
  excludePairs : List String
deriving Repr, DecidableEq

def statusMatches : StatusCond → String → Bool
  | .one s, st => st == s
  | .many l, st => l.contains st

/-- One `$nor` condition from an exclusion pair: `pair.split('-')` is
destructured into `[country, league]`; a pair without a dash leaves the
league `undefined`, which the query matches against a missing/null field. -/
def pairExcludes (p : String) (d : MatchDoc) : Bool :=
  (d.country == some ((p.splitOn "-").headD ""))
  && (match (p.splitOn "-")[1]? with
      | some l => d.league == some l
      | none => d.league == none)

/-- The selection query of `getMatchesForProcessing`. -/
def gmFilter (o : GmOptions) (d : MatchDoc) : Bool :=
  statusMatches o.status d.processingStatus
  && d.processingAttempts < o.maxAttempts
  && (match o.country with | some c => d.country == some c | none => true)
  && (match o.league with | some l => d.league == some l | none => true)
  && (match o.team with | some t => d.team == some t | none => true)
  && !(o.excludePairs.any (fun p => pairExcludes p d))

/-- The sampled sort decision: `findOne({})` returns the first document in
natural order, and the sort key is `scrapeId` exactly when that sample
exists and its `scrapeId` is not `undefined`. -/
def gmSortByScrapeId (coll : List MatchDoc) : Bool :=
  match coll.head? with
  | some d => d.scrapeId.isSome
  | none => false

def scrapedAtLe (a b : MatchDoc) : Prop := a.scrapedAt ≤ b.scrapedAt

instance : DecidableRel scrapedAtLe := fun a b => Nat.decLe _ _

instance : IsTotal MatchDoc scrapedAtLe := ⟨fun a b => Nat.le_total _ _⟩

instance : IsTrans MatchDoc scrapedAtLe := ⟨fun _ _ _ h1 h2 => Nat.le_trans h1 h2⟩

/-- `getMatchesForProcessing`: filter, sort by the sampled criterion, limit. -/
def getMatchesForProcessing (o : GmOptions) (coll : List MatchDoc) : List MatchDoc :=
  (if gmSortByScrapeId coll then
    List.insertionSort scrapeIdLe (coll.filter (gmFilter o))
  else
    List.insertionSort scrapedAtLe (coll.filter (gmFilter o))).take o.limit

def c8A : MatchDoc := ⟨"a", none, none, none, none, none, 30, none, "pending", 0⟩

def c8B : MatchDoc := ⟨"b", none, none, none, none, none, 20, some 7, "pending", 0⟩

def c8C : MatchDoc := ⟨"c", none, none, none, none, none, 10, none, "pending", 0⟩

def c8Opts : GmOptions := ⟨.one "pending", none, none, none, 100, 3, []⟩

/-- C8: the sort criterion is decided collection-wide from the single sampled
record: when the sample lacks `scrapeId` the whole result is sorted by
`scrapedAt` ascending (even if other records carry `scrapeId`), and when the
sample has one the result is sorted by `scrapeId` ascending; concretely, a
collection whose first record lacks `scrapeId` while another record has one
still comes back ordered by `scrapedAt`. -/
theorem C8_sort_fallback :
    (∀ (o : GmOptions) (coll : List MatchDoc),
      (∀ d, coll.head? = some d → d.scrapeId = none) →
      getMatchesForProcessing o coll
        = (List.insertionSort scrapedAtLe (coll.filter (gmFilter o))).take o.limit
      ∧ List.Sorted scrapedAtLe (getMatchesForProcessing o coll))
    ∧ (∀ (o : GmOptions) (coll : List MatchDoc) (d : MatchDoc),
      coll.head? = some d → d.scrapeId.isSome →
      getMatchesForProcessing o coll
        = (List.insertionSort scrapeIdLe (coll.filter (gmFilter o))).take o.limit
      ∧ List.Sorted scrapeIdLe (getMatchesForProcessing o coll))
    ∧ getMatchesForProcessing c8Opts [c8A, c8B, c8C] = [c8C, c8B, c8A] := by
  refine ⟨?_, ?_, by decide⟩
  · intro o coll hs
    have hb : gmSortByScrapeId coll = false := by
      unfold gmSortByScrapeId
      cases hh : coll.head? with
      | none => rfl
      | some d =>
        show d.scrapeId.isSome = false
        rw [hs d hh]
        rfl
    have he : getMatchesForProcessing o coll
        = (List.insertionSort scrapedAtLe (coll.filter (gmFilter o))).take o.limit := by
      unfold getMatchesForProcessing
      rw [hb]
      simp
    refine ⟨he, ?_⟩
    rw [he]
    exact List.Pairwise.sublist (List.take_sublist _ _)
      (List.sorted_insertionSort scrapedAtLe _)
  · intro o coll d hh hd
    have hb : gmSortByScrapeId coll = true := by
      unfold gmSortByScrapeId
      rw [hh]
      show d.scrapeId.isSome = true
      exact hd
    have he : getMatchesForProcessing o coll
        = (List.insertionSort scrapeIdLe (coll.filter (gmFilter o))).take o.limit := by
      unfold getMatchesForProcessing
      rw [hb]
      simp
    refine ⟨he, ?_⟩
    rw [he]
    have hto : IsTotal MatchDoc scrapeIdLe := ⟨fun a b => Nat.le_total _ _⟩
    have htr : IsTrans MatchDoc scrapeIdLe := ⟨fun _ _ _ h1 h2 => Nat.le_trans h1 h2⟩
    exact List.Pairwise.sublist (List.take_sublist _ _)
      (List.sorted_insertionSort scrapeIdLe _)

/-- Witness for `C8_sort_fallback` at the concrete three-record collection. -/
theorem C8_sort_fallback_witness :
    getMatchesForProcessing c8Opts [c8A, c8B, c8C]
      = (List.insertionSort scrapedAtLe
          ([c8A, c8B, c8C].filter (gmFilter c8Opts))).take c8Opts.limit :=
  (C8_sort_fallback.1 c8Opts [c8A, c8B, c8C]
    (by intro d hd; cases hd; rfl)).1
